import Mathlib

/-!
Verification of the grammar build pipeline (`src/build.rs`).

The development shallowly embeds the build script's data model and operations:

* the integrity verifier (`Sha256::new / update / finalize` followed by the
  lowercase-hex rendering `format!("\x7b:x\x7d", digest)`) is embedded as an
  executable SHA-256 over byte lists, `sha256hex`;
* `download_file` is embedded as a pure state transformer: the cache file and
  the network response are explicit inputs (the world), and the outcome records
  the returned `Result`, the final cache-file state, and the external events
  (directory creation, network fetches, file writes) the call performs;
* `print_grammar_assignment` is embedded as a function from an iteration order
  of the `dfa_map` to the text written to the output file so far plus the
  optional error — the Rust code writes directly to the file as it goes, so the
  partial output on failure is observable;
* `download_and_generate_grammars` is embedded with the manifest given as an
  already-text-parsed TOML value (textual TOML parsing is an external
  collaborator), decoded by the serde-derived shape of `GrammarDownload`.
-/

/-! ## SHA-256 (the integrity verifier)

Embedding of the `sha2` crate's SHA-256 as used by `build.rs`: bytes are
naturals taken mod 256, words are naturals mod 2^32. -/

/-- Truncation to a 32-bit word. -/
def w32 (x : Nat) : Nat := x % 4294967296

/-- Right rotation of a 32-bit word by `n` bits. -/
def rotr32 (n x : Nat) : Nat := w32 ((x >>> n) ||| (x <<< (32 - n)))

/-- Bitwise complement of a 32-bit word. -/
def notw32 (x : Nat) : Nat := 4294967295 ^^^ x

/-- SHA-256 round constants (FIPS 180-4, written in decimal). -/
def shaK : List Nat :=
  [1116352408, 1899447441, 3049323471, 3921009573,
   961987163, 1508970993, 2453635748, 2870763221,
   3624381080, 310598401, 607225278, 1426881987,
   1925078388, 2162078206, 2614888103, 3248222580,
   3835390401, 4022224774, 264347078, 604807628,
   770255983, 1249150122, 1555081692, 1996064986,
   2554220882, 2821834349, 2952996808, 3210313671,
   3336571891, 3584528711, 113926993, 338241895,
   666307205, 773529912, 1294757372, 1396182291,
   1695183700, 1986661051, 2177026350, 2456956037,
   2730485921, 2820302411, 3259730800, 3345764771,
   3516065817, 3600352804, 4094571909, 275423344,
   430227734, 506948616, 659060556, 883997877,
   958139571, 1322822218, 1537002063, 1747873779,
   1955562222, 2024104815, 2227730452, 2361852424,
   2428436474, 2756734187, 3204031479, 3329325298]

/-- SHA-256 initial hash state (FIPS 180-4, written in decimal). -/
def shaH0 : List Nat :=
  [1779033703, 3144134277, 1013904242, 2773480762,
   1359893119, 2600822924, 528734635, 1541459225]

/-- Big sigma-0 word mixing function. -/
def bSig0 (x : Nat) : Nat := rotr32 2 x ^^^ rotr32 13 x ^^^ rotr32 22 x

/-- Big sigma-1 word mixing function. -/
def bSig1 (x : Nat) : Nat := rotr32 6 x ^^^ rotr32 11 x ^^^ rotr32 25 x

/-- Small sigma-0 message-schedule mixing function. -/
def sSig0 (x : Nat) : Nat := rotr32 7 x ^^^ rotr32 18 x ^^^ (x >>> 3)

/-- Small sigma-1 message-schedule mixing function. -/
def sSig1 (x : Nat) : Nat := rotr32 17 x ^^^ rotr32 19 x ^^^ (x >>> 10)

/-- Choice function `Ch(x,y,z)`. -/
def chW (x y z : Nat) : Nat := (x &&& y) ^^^ (notw32 x &&& z)

/-- Majority function `Maj(x,y,z)`. -/
def majW (x y z : Nat) : Nat := (x &&& y) ^^^ (x &&& z) ^^^ (y &&& z)

/-- Big-endian encoding of the 64-bit message bit length. -/
def shaLenBytes (len : Nat) : List Nat :=
  [((8 * len) >>> 56) % 256, ((8 * len) >>> 48) % 256, ((8 * len) >>> 40) % 256,
   ((8 * len) >>> 32) % 256, ((8 * len) >>> 24) % 256, ((8 * len) >>> 16) % 256,
   ((8 * len) >>> 8) % 256, (8 * len) % 256]

/-- SHA-256 padding: append `0x80`, zero bytes to 56 mod 64, and the bit length. -/
def sha256pad (m : List Nat) : List Nat :=
  let msg := m.map (· % 256)
  let len := msg.length
  msg ++ [128] ++ List.replicate ((119 - len % 64) % 64) 0 ++ shaLenBytes len

/-- Splits a byte list into 64-byte blocks (fuel-driven so it reduces in the kernel). -/
def chunksAux : Nat → List Nat → List (List Nat)
  | 0, _ => []
  | _, [] => []
  | fuel + 1, l => l.take 64 :: chunksAux fuel (l.drop 64)

/-- Splits a byte list into 64-byte blocks. -/
def chunks64 (l : List Nat) : List (List Nat) := chunksAux l.length l

/-- Big-endian 32-bit words of a byte list. -/
def wordsOfBytes : List Nat → List Nat
  | b0 :: b1 :: b2 :: b3 :: rest =>
    ((b0 <<< 24) + (b1 <<< 16) + (b2 <<< 8) + b3) :: wordsOfBytes rest
  | _ => []

/-- One message-schedule extension step: appends `W[t]` for `t = length`. -/
def schedStep (w : List Nat) : List Nat :=
  w ++ [w32 (sSig1 (w.getD (w.length - 2) 0) + w.getD (w.length - 7) 0 +
             sSig0 (w.getD (w.length - 15) 0) + w.getD (w.length - 16) 0)]

/-- Full 64-word message schedule from the 16 block words. -/
def shaSchedule (w16 : List Nat) : List Nat :=
  (List.range 48).foldl (fun w _ => schedStep w) w16

/-- One SHA-256 compression round on the eight-word state, `kw = K[t] + W[t]`. -/
def shaRound (st : List Nat) (kw : Nat) : List Nat :=
  match st with
  | [a, b, c, d, e, f, g, h] =>
    let t1 := w32 (h + bSig1 e + chW e f g + kw)
    let t2 := w32 (bSig0 a + majW a b c)
    [w32 (t1 + t2), a, b, c, w32 (d + t1), e, f, g]
  | other => other

/-- SHA-256 compression of one 64-byte block into the running state. -/
def compressBlock (h : List Nat) (block : List Nat) : List Nat :=
  let w := shaSchedule (wordsOfBytes block)
  let kw := List.zipWith (fun k wi => w32 (k + wi)) shaK w
  let st := kw.foldl shaRound h
  List.zipWith (fun x y => w32 (x + y)) h st

/-- SHA-256 digest of a byte list, as eight 32-bit words. -/
def sha256words (m : List Nat) : List Nat :=
  (chunks64 (sha256pad m)).foldl compressBlock shaH0

/-- Big-endian bytes of a list of 32-bit words. -/
def bytesOfWords (ws : List Nat) : List Nat :=
  (ws.map (fun w => [(w >>> 24) % 256, (w >>> 16) % 256, (w >>> 8) % 256, w % 256])).flatten

/-- SHA-256 digest of a byte list, as 32 bytes. -/
def sha256bytes (m : List Nat) : List Nat := bytesOfWords (sha256words m)

/-- The sixteen lowercase hexadecimal digits. -/
def hexDigitChars : List Char := "0123456789abcdef".data

/-- Rendering of one byte as two lowercase hex characters, as Rust's
`\x7b:02x\x7d` does for each digest byte. -/
def hexOfByte (b : Nat) : List Char :=
  [hexDigitChars.getD ((b >>> 4) % 16) '0', hexDigitChars.getD (b % 16) '0']

/-- Hex digest string of a byte list: `format!("\x7b:x\x7d", Sha256::digest(m))` —
the digest rendered as lowercase hexadecimal. -/
def sha256hex (m : List Nat) : String :=
  ⟨((sha256bytes m).map hexOfByte).flatten⟩

/-! ## The content fetcher and cache (`download_file`)

`download_file(url, sha256, dir)` is embedded as a pure function of the state
of the cache file at `dir/filename` and of the network response for `url`.
The outcome records the returned `Result`, the final state of the cache file,
the number of network transfers performed, and the external events of the call
in order. -/

/-- State of the file at `dir/filename` as `download_file` finds or leaves it:
`absent` (`File::open` fails), `unreadable` (`read_to_end` fails), or
`present data` (open and read succeed, yielding `data`). -/
inductive CacheFile
  | absent
  | unreadable
  | present (data : List Nat)
deriving DecidableEq

/-- Error-kind tags of `std::io::Error` as used by `build.rs`:
`ErrorKind::InvalidData` for the integrity and extension errors, and a
catch-all for errors converted from curl. -/
inductive RsErrorKind
  | invalidData
  | otherError
deriving DecidableEq

/-- A `std::io::Error` value as constructed by `build.rs`: a kind and a
message string. -/
structure IoError where
  kind : RsErrorKind
  msg : String
deriving DecidableEq

/-- External events performed by the build script, in order. -/
inductive Event
  | mkdir (path : String)
  | netFetch (url : String)
  | fsWrite (path : String) (data : List Nat)
deriving DecidableEq

/-- Outcome of one `download_file` call: the `Result` it returns, the state of
the cache file afterwards, the number of network transfers performed, and the
ordered external events. -/
structure FetchOutcome where
  result : Except IoError Unit
  file : CacheFile
  network_calls : Nat
  events : List Event

/-- Final path segment of a URL, as `Path::new(&url).file_name()` extracts it
for a URL whose last component is nonempty (`build.rs` unwraps that case). -/
def rsFileName (url : String) : String :=
  (url.splitOn "/").getLastD url

/-- Stem of a filename, as `Path::new(..).file_stem()`: the portion before the
final `.`, unless that portion is empty, in which case the whole name. -/
def rsFileStem (name : String) : String :=
  let parts := name.splitOn "."
  if parts.length ≤ 1 then name
  else
    let pre := String.intercalate "." parts.dropLast
    if pre = "" then name else pre

/-- Fresh-download half of `download_file` (`build.rs` lines 128-155): clear the
buffer, perform the curl transfer, recompute the digest; on a match persist the
bytes to `dir/filename`, otherwise return the `InvalidData` error and leave the
file as it was. `fetch` is the network's response for `url` (`none` is a failed
transfer). -/
def download_fresh (url sha256 dir : String) (cache : CacheFile)
    (fetch : Option (List Nat)) : FetchOutcome :=
  match fetch with
  | none =>
    { result := .error ⟨.otherError, "curl error"⟩, file := cache,
      network_calls := 1, events := [.mkdir dir, .netFetch url] }
  | some data =>
    if sha256hex data = sha256 then
      { result := .ok (), file := .present data, network_calls := 1,
        events := [.mkdir dir, .netFetch url,
                   .fsWrite (dir ++ "/" ++ rsFileName url) data] }
    else
      { result := .error ⟨.invalidData, "Downloaded file with wrong SHA-256"⟩,
        file := cache, network_calls := 1, events := [.mkdir dir, .netFetch url] }

/-- `download_file` (`build.rs` lines 109-155): create the cache directory; if
the file at `dir/filename` opens, reads, and its digest equals `sha256`, return
`Ok` with no network activity; otherwise fall through to the fresh download. -/
def download_file (url sha256 dir : String) (cache : CacheFile)
    (fetch : Option (List Nat)) : FetchOutcome :=
  match cache with
  | .present data =>
    if sha256hex data = sha256 then
      { result := .ok (), file := .present data, network_calls := 0,
        events := [.mkdir dir] }
    else download_fresh url sha256 dir (.present data) fetch
  | c => download_fresh url sha256 dir c fetch

/-! ### Helper lemmas about the digest rendering -/

/-- Element or default: `List.getD` always yields a member when the default is one. -/
theorem getD_mem_of_mem {l : List Char} {i : Nat} {d : Char} (hd : d ∈ l) :
    l.getD i d ∈ l := by
  rw [List.getD_eq_getElem?_getD]
  cases h : l[i]? with
  | none => simpa using hd
  | some x => simpa using List.getElem?_mem h

/-- Every character produced by `hexOfByte` is a lowercase hex digit. -/
theorem mem_hexOfByte {c : Char} {b : Nat} (h : c ∈ hexOfByte b) :
    c ∈ hexDigitChars := by
  simp only [hexOfByte, List.mem_cons, List.not_mem_nil, or_false] at h
  rcases h with rfl | rfl <;> exact getD_mem_of_mem (by decide)

/-- Every character of a rendered digest is a lowercase hex digit. -/
theorem sha256hex_chars {m : List Nat} {c : Char} (h : c ∈ (sha256hex m).data) :
    c ∈ hexDigitChars := by
  have h' : c ∈ ((sha256bytes m).map hexOfByte).flatten := h
  rw [List.mem_flatten] at h'
  obtain ⟨l, hl, hc⟩ := h'
  rw [List.mem_map] at hl
  obtain ⟨b, _, rfl⟩ := hl
  exact mem_hexOfByte hc

/-- No lowercase hex digit is an uppercase hex letter. -/
theorem hexDigit_not_upper {c : Char} (h : c ∈ hexDigitChars) :
    ¬('A' ≤ c ∧ c ≤ 'F') := by
  fin_cases h <;> decide

/-- A string containing an uppercase hex letter is never a rendered digest. -/
theorem sha256hex_ne_upper {s : String}
    (hup : ∃ c ∈ s.data, 'A' ≤ c ∧ c ≤ 'F') (m : List Nat) :
    sha256hex m ≠ s := by
  intro heq
  obtain ⟨c, hc, hAF⟩ := hup
  rw [← heq] at hc
  exact hexDigit_not_upper (sha256hex_chars hc) hAF

/-- Shared helper: outcome of `download_file` when the cache does not hold
matching content and the fetched bytes do not match either. -/
theorem download_file_mismatch (url sha256 dir : String) (cache : CacheFile)
    (data : List Nat)
    (hstale : ∀ b, cache = .present b → sha256hex b ≠ sha256)
    (hmis : sha256hex data ≠ sha256) :
    download_file url sha256 dir cache (some data) =
      { result := .error ⟨.invalidData, "Downloaded file with wrong SHA-256"⟩,
        file := cache, network_calls := 1,
        events := [.mkdir dir, .netFetch url] } := by
  cases cache with
  | present b =>
    have hb := hstale b rfl
    simp [download_file, download_fresh, hb, hmis]
  | absent => simp [download_file, download_fresh, hmis]
  | unreadable => simp [download_file, download_fresh, hmis]

/-! ### Claims about `download_file` -/

/-- C1: whenever `download_file` re-downloads (the cache file is absent,
unreadable, or hash-mismatching) and the freshly fetched bytes hash to
something other than the expected digest, the call fails with the
`InvalidData` integrity error, performs exactly one network transfer (no
retry), and writes nothing: the cache file is left exactly as it was and the
event trace contains no file write. -/
theorem download_file_integrity_failure (url sha256 dir : String)
    (cache : CacheFile) (data : List Nat)
    (hstale : ∀ b, cache = .present b → sha256hex b ≠ sha256)
    (hmis : sha256hex data ≠ sha256) :
    download_file url sha256 dir cache (some data) =
      { result := .error ⟨.invalidData, "Downloaded file with wrong SHA-256"⟩,
        file := cache, network_calls := 1,
        events := [.mkdir dir, .netFetch url] } :=
  download_file_mismatch url sha256 dir cache data hstale hmis

/-- Witness for C1: an empty cache and fetched bytes whose digest is not the
(uppercase, hence never matching) expected hash. -/
theorem download_file_integrity_failure_witness :
    download_file "https://x/json.g4" "AAAA" "cache" .absent (some [1, 2]) =
      { result := .error ⟨.invalidData, "Downloaded file with wrong SHA-256"⟩,
        file := .absent, network_calls := 1,
        events := [.mkdir "cache", .netFetch "https://x/json.g4"] } :=
  download_file_integrity_failure "https://x/json.g4" "AAAA" "cache" .absent [1, 2]
    (fun _ h => nomatch h)
    (sha256hex_ne_upper ⟨'A', by decide, by decide⟩ [1, 2])

/-- C2: if the cache file is present, readable, and its digest equals the
expected hash, `download_file` returns `Ok` with zero network transfers and
leaves the file's bytes unchanged; moreover, assuming the digest does not
collide on the two contents in play, those bytes are exactly what a fresh
fetch of hash-matching content would have stored. -/
theorem download_file_cache_hit (url sha256 dir : String) (d fetched : List Nat)
    (hhit : sha256hex d = sha256)
    (hfetch : sha256hex fetched = sha256)
    (hcoll : sha256hex d = sha256hex fetched → d = fetched) :
    download_file url sha256 dir (.present d) (some fetched) =
      { result := .ok (), file := .present d, network_calls := 0,
        events := [.mkdir dir] } ∧
    (download_file url sha256 dir .absent (some fetched)).file = .present d := by
  have hdf : d = fetched := hcoll (hhit.trans hfetch.symm)
  subst hdf
  constructor
  · simp [download_file, hhit]
  · simp [download_file, download_fresh, hhit]

/-- Witness for C2: a populated cache whose content hashes to the pinned
digest. -/
theorem download_file_cache_hit_witness :
    download_file "https://x/json.g4" (sha256hex [7, 8]) "cache"
        (.present [7, 8]) (some [7, 8]) =
      { result := .ok (), file := .present [7, 8], network_calls := 0,
        events := [.mkdir "cache"] } ∧
    (download_file "https://x/json.g4" (sha256hex [7, 8]) "cache"
        .absent (some [7, 8])).file = .present [7, 8] :=
  download_file_cache_hit "https://x/json.g4" (sha256hex [7, 8]) "cache"
    [7, 8] [7, 8] rfl rfl (fun _ => rfl)

/-- C7 counterexample: the integrity error is one fixed value. Two failing
fetches with different URLs and different expected hashes return the very same
error, whose message is too short to contain either the 33-character URL or
the 64-character expected hash — so the error does not carry the URL, the
entry name, or the expected and actual digests. -/
theorem download_file_error_lacks_context :
    (download_file "https://example.com/long/grammar.g4"
        "AAAA567890123456789012345678901234567890123456789012345678901234"
        "cache" .absent (some [1])).result =
      .error ⟨.invalidData, "Downloaded file with wrong SHA-256"⟩ ∧
    (download_file "https://other-host.org/tree/other.g4"
        "AAAA000000000000000000000000000000000000000000000000000000000000"
        "dir2" .unreadable (some [2, 3])).result =
      .error ⟨.invalidData, "Downloaded file with wrong SHA-256"⟩ ∧
    ¬ List.IsInfix "https://example.com/long/grammar.g4".data
        "Downloaded file with wrong SHA-256".data ∧
    ¬ List.IsInfix
        "AAAA567890123456789012345678901234567890123456789012345678901234".data
        "Downloaded file with wrong SHA-256".data := by
  refine ⟨?_, ?_, ?_, ?_⟩
  · rw [download_file_mismatch "https://example.com/long/grammar.g4"
      "AAAA567890123456789012345678901234567890123456789012345678901234"
      "cache" .absent [1] (fun _ h => nomatch h)
      (sha256hex_ne_upper ⟨'A', by decide, by decide⟩ [1])]
  · rw [download_file_mismatch "https://other-host.org/tree/other.g4"
      "AAAA000000000000000000000000000000000000000000000000000000000000"
      "dir2" .unreadable [2, 3] (fun _ h => nomatch h)
      (sha256hex_ne_upper ⟨'A', by decide, by decide⟩ [2, 3])]
  · intro h
    have := h.length_le
    simp at this
  · intro h
    have := h.length_le
    simp at this

/-- C7 (amended): on a hash-mismatch failure `download_file` returns the
constant error `InvalidData / "Downloaded file with wrong SHA-256"`,
independent of the URL, the expected hash, the actual hash, and the cache
state — in particular two failing calls with different parameters return
identical error values. -/
theorem download_file_error_constant (url₁ sha₁ dir₁ url₂ sha₂ dir₂ : String)
    (c₁ c₂ : CacheFile) (d₁ d₂ : List Nat)
    (hs₁ : ∀ b, c₁ = .present b → sha256hex b ≠ sha₁)
    (hm₁ : sha256hex d₁ ≠ sha₁)
    (hs₂ : ∀ b, c₂ = .present b → sha256hex b ≠ sha₂)
    (hm₂ : sha256hex d₂ ≠ sha₂) :
    (download_file url₁ sha₁ dir₁ c₁ (some d₁)).result =
      .error ⟨.invalidData, "Downloaded file with wrong SHA-256"⟩ ∧
    (download_file url₁ sha₁ dir₁ c₁ (some d₁)).result =
      (download_file url₂ sha₂ dir₂ c₂ (some d₂)).result := by
  rw [download_file_mismatch url₁ sha₁ dir₁ c₁ d₁ hs₁ hm₁,
    download_file_mismatch url₂ sha₂ dir₂ c₂ d₂ hs₂ hm₂]
  exact ⟨rfl, rfl⟩

/-- Witness for the amended C7: two concrete failing fetches with unrelated
parameters yield the same constant error. -/
theorem download_file_error_constant_witness :
    (download_file "https://a/x.g4" "AB" "d1" .absent (some [1])).result =
      .error ⟨.invalidData, "Downloaded file with wrong SHA-256"⟩ ∧
    (download_file "https://a/x.g4" "AB" "d1" .absent (some [1])).result =
      (download_file "https://b/y.g4" "CD" "d2" .unreadable (some [2])).result :=
  download_file_error_constant "https://a/x.g4" "AB" "d1" "https://b/y.g4" "CD" "d2"
    .absent .unreadable [1] [2]
    (fun _ h => nomatch h) (sha256hex_ne_upper ⟨'A', by decide, by decide⟩ [1])
    (fun _ h => nomatch h) (sha256hex_ne_upper ⟨'C', by decide, by decide⟩ [2])

/-- C10: the rendered digest is always lowercase hexadecimal, so an expected
hash containing an uppercase hex letter compares unequal to every digest: the
cache-hit check misses (one network transfer happens) and the post-download
check fails, whatever the cached and fetched contents are. -/
theorem uppercase_hash_never_matches (url sha256 dir : String) (d b : List Nat)
    (hup : ∃ c ∈ sha256.data, 'A' ≤ c ∧ c ≤ 'F') :
    (∀ m : List Nat, sha256hex m ≠ sha256) ∧
    download_file url sha256 dir (.present d) (some b) =
      { result := .error ⟨.invalidData, "Downloaded file with wrong SHA-256"⟩,
        file := .present d, network_calls := 1,
        events := [.mkdir dir, .netFetch url] } := by
  refine ⟨sha256hex_ne_upper hup, ?_⟩
  exact download_file_mismatch url sha256 dir (.present d) b
    (fun b' hb' => by injection hb' with h; rw [← h]; exact sha256hex_ne_upper hup d)
    (sha256hex_ne_upper hup b)

/-- Witness for C10: an uppercase-hex pinned hash with a populated cache and a
successful fetch still fails. -/
theorem uppercase_hash_never_matches_witness :
    (∀ m : List Nat,
      sha256hex m ≠ "E3B0C44298FC1C149AFBF4C8996FB92427AE41E4649B934CA495991B7852B855") ∧
    download_file "https://x/json.g4"
        "E3B0C44298FC1C149AFBF4C8996FB92427AE41E4649B934CA495991B7852B855"
        "cache" (.present [5]) (some [6]) =
      { result := .error ⟨.invalidData, "Downloaded file with wrong SHA-256"⟩,
        file := .present [5], network_calls := 1,
        events := [.mkdir "cache", .netFetch "https://x/json.g4"] } :=
  uppercase_hash_never_matches "https://x/json.g4"
    "E3B0C44298FC1C149AFBF4C8996FB92427AE41E4649B934CA495991B7852B855"
    "cache" [5] [6] ⟨'E', by decide, by decide⟩

/-! ## The dispatch-table emitter (`print_grammar_assignment`)

The Rust code iterates `dfa_map.into_iter()` (an unspecified `HashMap` order),
writing to the already-created output file as it goes; the embedding takes the
iteration order as a list and returns the text written to the file together
with the optional error. -/

/-- Rust's `char::is_alphanumeric` (Unicode `Alphabetic` or `Nd`/`Nl`/`No`),
tabulated for the code points below `0x100` that `build.rs` can receive there:
ASCII digits and letters, the superscripts and vulgar fractions `²³¹¼½¾`, and
the Latin-1 letters `ªµºÀ-ÖØ-öø-ÿ`. Code points `0x100` and above are outside
the tabulated range and are mapped to `false`; theorems over this model
restrict extensions to the tabulated range. -/
def rustIsAlphanumeric (c : Char) : Bool :=
  let n := c.toNat
  (48 ≤ n && n ≤ 57) || (65 ≤ n && n ≤ 90) || (97 ≤ n && n ≤ 122) ||
  n == 0xAA || n == 0xB5 || n == 0xBA ||
  n == 0xB2 || n == 0xB3 || n == 0xB9 || (0xBC ≤ n && n ≤ 0xBE) ||
  (0xC0 ≤ n && n ≤ 0xD6) || (0xD8 ≤ n && n ≤ 0xF6) || (0xF8 ≤ n && n ≤ 0xFF)

/-- Modelled from the spec: the `[A-Za-z0-9]` character class that §3 and §8 of
the specification use to constrain extension strings. -/
def specAsciiAlphanumeric (c : Char) : Bool :=
  let n := c.toNat
  (48 ≤ n && n ≤ 57) || (65 ≤ n && n ≤ 90) || (97 ≤ n && n ≤ 122)

/-- Modelled from the spec: the data-model constraint `[A-Za-z0-9]+` on
extension strings (at least one character, all of them ASCII alphanumeric). -/
def specExtensionOk (s : String) : Bool :=
  !s.isEmpty && s.data.all specAsciiAlphanumeric

/-- On ASCII characters the source's Unicode check coincides with the spec's
`[A-Za-z0-9]` class. -/
theorem rustIsAlphanumeric_ascii {c : Char} (h : c.toNat < 128) :
    rustIsAlphanumeric c = specAsciiAlphanumeric c := by
  rw [Bool.eq_iff_iff]
  simp only [rustIsAlphanumeric, specAsciiAlphanumeric, Bool.or_eq_true,
    Bool.and_eq_true, decide_eq_true_eq, beq_iff_eq]
  omega

/-- Header text that `print_grammar_assignment` writes before iterating the
map (`build.rs` lines 48-54). -/
def headerText : String :=
  "/// Returns a vector of bytes containing the lexer DFA implementation, given\n/// the file extension.\nfn assign_dfas(extension: &str) \x7b\n    match extension \x7b\n"

/-- Footer text written after a fully successful iteration (`build.rs` lines
69-70): the fallback arm and the closing braces. -/
def footerText : String :=
  "        _ => Vec::new(),\n    \x7d\n\x7d\n"

/-- One match arm of the generated dispatch table (`build.rs` lines 57-61). -/
def emitArm (extension dfa_bytes : String) : String :=
  "        \x22" ++ extension ++ "\x22 => include_bytes!(\x22" ++ dfa_bytes ++
    "\x22),\n"

/-- Iteration loop of `print_grammar_assignment` (`build.rs` lines 55-68):
`acc` is the text already written to the output file; each valid entry appends
its arm, and the first invalid extension aborts with the `InvalidData` error,
leaving `acc` as the file's content. -/
def emitLoop : List (String × String) → String → String × Option IoError
  | [], acc => (acc ++ footerText, none)
  | (extension, dfa_bytes) :: rest, acc =>
    if extension.data.all rustIsAlphanumeric then
      emitLoop rest (acc ++ emitArm extension dfa_bytes)
    else
      (acc, some ⟨.invalidData,
        "non alphanumeric extension \x27" ++ extension ++ "\x27"⟩)

/-- `print_grammar_assignment` (`build.rs` lines 43-72), as a function of the
`dfa_map` iteration order: the text written to the (created, hence truncated)
output file, and the error if emission aborted. -/
def print_grammar_assignment (dfa_map : List (String × String)) :
    String × Option IoError :=
  emitLoop dfa_map headerText

/-- Concatenated match arms of a list of map entries, in iteration order. -/
def armsText : List (String × String) → String
  | [] => ""
  | p :: rest => emitArm p.1 p.2 ++ armsText rest

/-- The emission loop errors exactly when some entry's extension fails the
source's alphanumeric check, whatever text was already written. -/
theorem emitLoop_err_iff (l : List (String × String)) (acc : String) :
    (emitLoop l acc).2 ≠ none ↔
      ∃ p ∈ l, ¬ p.1.data.all rustIsAlphanumeric := by
  induction l generalizing acc with
  | nil => simp [emitLoop]
  | cons hd tl ih =>
    obtain ⟨ext, path⟩ := hd
    by_cases hv : ext.data.all rustIsAlphanumeric
    · have he : emitLoop ((ext, path) :: tl) acc =
          emitLoop tl (acc ++ emitArm ext path) := by
        simp [emitLoop, hv]
      rw [he, ih]
      constructor
      · rintro ⟨p, hp, hnp⟩
        exact ⟨p, List.mem_cons_of_mem _ hp, hnp⟩
      · rintro ⟨p, hp, hnp⟩
        rcases List.mem_cons.mp hp with rfl | hp'
        · exact absurd hv hnp
        · exact ⟨p, hp', hnp⟩
    · have he : emitLoop ((ext, path) :: tl) acc =
          (acc, some ⟨.invalidData,
            "non alphanumeric extension \x27" ++ ext ++ "\x27"⟩) := by
        simp [emitLoop, hv]
      rw [he]
      constructor
      · intro _
        exact ⟨(ext, path), List.mem_cons_self _ _, hv⟩
      · intro _
        simp

/-- Processing a prefix of valid entries appends their arms to the written
text. -/
theorem emitLoop_valid_append (pre tail : List (String × String)) (acc : String)
    (hpre : ∀ p ∈ pre, p.1.data.all rustIsAlphanumeric) :
    emitLoop (pre ++ tail) acc = emitLoop tail (acc ++ armsText pre) := by
  induction pre generalizing acc with
  | nil => simp [armsText]
  | cons hd tl ih =>
    obtain ⟨ext, path⟩ := hd
    have hhd : ext.data.all rustIsAlphanumeric := hpre (ext, path) (by simp)
    have htl : ∀ p ∈ tl, p.1.data.all rustIsAlphanumeric :=
      fun p hp => hpre p (List.mem_cons_of_mem _ hp)
    have he : emitLoop (((ext, path) :: tl) ++ tail) acc =
        emitLoop (tl ++ tail) (acc ++ emitArm ext path) := by
      simp [emitLoop, hhd]
    rw [he, ih _ htl]
    congr 1
    rw [armsText, String.append_assoc]

/-! ### Claims about `print_grammar_assignment` -/

/-- C3 counterexample: the extension `"é"` contains a character outside
`[A-Za-z0-9]`, yet `print_grammar_assignment` succeeds on it — Rust's
Unicode-aware `char::is_alphanumeric` accepts `é`, so failure is not
equivalent to "some character outside `[A-Za-z0-9]`". -/
theorem print_grammar_assignment_unicode_ext_ok :
    (print_grammar_assignment [("é", "gen/c/c.dfa")]).2 = none ∧
    ∃ c ∈ "é".data, specAsciiAlphanumeric c = false := by
  exact ⟨rfl, ⟨'é', by decide, by decide⟩⟩

/-- C3 (amended): over extensions within the tabulated Latin-1 range,
`print_grammar_assignment` fails if and only if some extension contains a
character rejected by Rust's Unicode `char::is_alphanumeric` — a strictly
larger class than `[A-Za-z0-9]` (on ASCII the two agree, by
`rustIsAlphanumeric_ascii`); no invalid extension is silently dropped. -/
theorem print_grammar_assignment_fail_iff (m : List (String × String))
    (_hlatin : ∀ p ∈ m, ∀ c ∈ p.1.data, c.toNat < 256) :
    (print_grammar_assignment m).2 ≠ none ↔
      ∃ p ∈ m, ∃ c ∈ p.1.data, rustIsAlphanumeric c = false := by
  simp only [print_grammar_assignment, emitLoop_err_iff, List.all_eq_true,
    not_forall, Classical.not_imp, Bool.not_eq_true, exists_prop]

/-- Witness for the amended C3: a map with one valid and one invalid entry
fails, and the same map without the invalid entry does not. -/
theorem print_grammar_assignment_fail_iff_witness :
    ((print_grammar_assignment [("json", "p"), ("c+", "q")]).2 ≠ none ↔
      ∃ p ∈ [("json", "p"), ("c+", "q")], ∃ c ∈ p.1.data,
        rustIsAlphanumeric c = false) ∧
    ((print_grammar_assignment [("json", "p")]).2 ≠ none ↔
      ∃ p ∈ [("json", "p")], ∃ c ∈ p.1.data, rustIsAlphanumeric c = false) :=
  ⟨print_grammar_assignment_fail_iff [("json", "p"), ("c+", "q")]
      (by intro p hp c hc; fin_cases hp <;> fin_cases hc <;> decide),
   print_grammar_assignment_fail_iff [("json", "p")]
      (by intro p hp c hc; fin_cases hp; fin_cases hc <;> decide)⟩

/-- C5 counterexample: on the single-entry map `{"c++" ↦ ..}` emission fails,
but the output file is not empty — it holds the header text, which was
written before the first extension was validated. -/
theorem print_grammar_assignment_partial_output :
    (print_grammar_assignment [("c++", "gen/cpp/cpp.dfa")]).2.isSome ∧
    (print_grammar_assignment [("c++", "gen/cpp/cpp.dfa")]).1 = headerText ∧
    headerText ≠ "" :=
  ⟨rfl, rfl, by decide⟩

/-- C5 (amended): when the map contains an invalid extension, emission aborts
at the first invalid entry in iteration order, and the output file then
contains exactly the header plus the match arms of the valid entries processed
before it — the invalid entry and everything after it contribute nothing, and
no footer or fallback arm is written. -/
theorem print_grammar_assignment_aborts_after_partial_write
    (pre : List (String × String)) (ext path : String)
    (rest : List (String × String))
    (hpre : ∀ p ∈ pre, p.1.data.all rustIsAlphanumeric)
    (hbad : ¬ ext.data.all rustIsAlphanumeric) :
    print_grammar_assignment (pre ++ (ext, path) :: rest) =
      (headerText ++ armsText pre,
       some ⟨.invalidData,
         "non alphanumeric extension \x27" ++ ext ++ "\x27"⟩) := by
  rw [print_grammar_assignment, emitLoop_valid_append pre _ _ hpre]
  simp [emitLoop, hbad]

/-- Witness for the amended C5: a valid entry before and after the invalid
one; only the earlier arm reaches the file. -/
theorem print_grammar_assignment_aborts_after_partial_write_witness :
    print_grammar_assignment [("a", "p1"), ("c++", "p2"), ("b", "p3")] =
      (headerText ++ armsText [("a", "p1")],
       some ⟨.invalidData,
         "non alphanumeric extension \x27" ++ "c++" ++ "\x27"⟩) :=
  print_grammar_assignment_aborts_after_partial_write [("a", "p1")] "c++" "p2"
    [("b", "p3")] (by intro p hp; fin_cases hp; decide) (by decide)

/-- C9: the empty extension passes the source's all-characters check
vacuously, so `print_grammar_assignment` succeeds on a map containing it and
emits a match arm for `""` — even though the spec's data-model constraint
`[A-Za-z0-9]+` rejects the empty string. -/
theorem empty_extension_accepted (path : String) :
    print_grammar_assignment [("", path)] =
      (headerText ++ emitArm "" path ++ footerText, none) ∧
    "".data.all rustIsAlphanumeric = true ∧
    specExtensionOk "" = false := by
  refine ⟨?_, rfl, rfl⟩
  simp [print_grammar_assignment, emitLoop]

/-! ## The manifest loader and pipeline (`download_and_generate_grammars`)

The manifest is given as an already-text-parsed TOML value (textual parsing is
an external collaborator); the serde-derived shape of `GrammarDownload` is
embedded as an explicit decoder. The network, the cache, and the embedded
grammar compiler are oracles, and the pipeline's external events are recorded
in order. -/

/-- TOML values, as far as the manifest shape needs them. -/
inductive Toml
  | str (s : String)
  | arr (vs : List Toml)
  | table (kvs : List (String × Toml))

/-- One manifest entry, decoded (`build.rs` lines 18-23): in this variant of
the build script `url` and `sha256` are single strings, not lists. -/
structure GrammarDownload where
  url : String
  sha256 : String
  extensions : List String

/-- First binding of a key in a TOML table. -/
def lookupToml (kvs : List (String × Toml)) (k : String) : Option Toml :=
  (kvs.find? (fun p => p.1 == k)).map (·.2)

/-- Serde string field decoder: anything but a TOML string is a type error. -/
def asStr : Toml → Except String String
  | .str s => .ok s
  | _ => .error "invalid type: expected a string"

/-- Serde `Vec<String>` element decoder. -/
def asStrListAux : List Toml → Except String (List String)
  | [] => .ok []
  | v :: rest =>
    match asStr v with
    | .error e => .error e
    | .ok s =>
      match asStrListAux rest with
      | .error e => .error e
      | .ok ss => .ok (s :: ss)

/-- Serde `Vec<String>` field decoder: anything but a TOML array of strings is
a type error. -/
def asStrList : Toml → Except String (List String)
  | .arr vs => asStrListAux vs
  | _ => .error "invalid type: expected a sequence"

/-- Serde-derived decoder for `GrammarDownload`: requires `url: String`,
`sha256: String`, `extensions: Vec<String>`. -/
def decodeGrammarDownload : Toml → Except String GrammarDownload
  | .table kvs =>
    match lookupToml kvs "url" with
    | none => .error "missing field url"
    | some uv =>
      match asStr uv with
      | .error e => .error e
      | .ok url =>
        match lookupToml kvs "sha256" with
        | none => .error "missing field sha256"
        | some sv =>
          match asStr sv with
          | .error e => .error e
          | .ok sha =>
            match lookupToml kvs "extensions" with
            | none => .error "missing field extensions"
            | some ev =>
              match asStrList ev with
              | .error e => .error e
              | .ok exts => .ok ⟨url, sha, exts⟩
  | _ => .error "invalid type: expected a table"

/-- Decoder for the whole manifest table, failing at the first bad entry, as
`toml::from_str::<HashMap<String, GrammarDownload>>` does. -/
def decodeEntries : List (String × Toml) →
    Except String (List (String × GrammarDownload))
  | [] => .ok []
  | (k, v) :: rest =>
    match decodeGrammarDownload v with
    | .error e => .error e
    | .ok g =>
      match decodeEntries rest with
      | .error e => .error e
      | .ok gs => .ok ((k, g) :: gs)

/-- `toml::from_str` into `HashMap<String, GrammarDownload>`, at the value
level. -/
def decodeManifest : Toml → Except String (List (String × GrammarDownload))
  | .table kvs => decodeEntries kvs
  | _ => .error "invalid type: expected a table"

/-- The build script's error union (`build.rs` lines 157-162), payloads kept
as messages. -/
inductive BuildScriptError
  | parse (err : String)
  | toml (err : String)
  | io (err : IoError)

/-- Modelled from the spec: `wisent`'s `Grammar::parse_grammar`, `Dfa::new`
and `Dfa::as_bytes` are an external crate, not part of this repository's
sources. Per §4.4 of the specification the embedded-compiler strategy is a
pure function from verified grammar bytes to serialized-automaton bytes, with
parse failure reported as a `GrammarParseError`; the pipeline model takes any
such function as an oracle. -/
def EmbeddedCompiler : Type := List Nat → Except String (List Nat)

/-- Content of the cache file, as `Grammar::parse_grammar` re-reads it from
the path `download_file` just validated (that path always holds bytes after a
successful `download_file`). -/
def fileBytes : CacheFile → List Nat
  | .present d => d
  | _ => []

/-- Generator stage of one entry (`build.rs` lines 94-97): run the embedded
compiler on the verified grammar bytes and write the serialized automaton to
the entry's generated file. -/
def generator_stage (gen : EmbeddedCompiler) (generated_file : String)
    (verified : List Nat) : List Event × Except BuildScriptError (List Nat) :=
  match gen verified with
  | .error e => ([], .error (.parse e))
  | .ok encoded_dfa => ([.fsWrite generated_file encoded_dfa], .ok encoded_dfa)

/-- `HashMap::insert` on the dispatch map: replaces the binding of an existing
key, appends a new one otherwise. -/
def hmInsert : List (String × String) → String → String → List (String × String)
  | [], k, v => [(k, v)]
  | (k', v') :: rest, k, v =>
    if k' = k then (k, v) :: rest else (k', v') :: hmInsert rest k v

/-- First binding of a key in the dispatch map. -/
def hmLookup (m : List (String × String)) (k : String) : Option String :=
  (m.find? (fun p => p.1 == k)).map (·.2)

/-- Number of bindings of a key in the dispatch map. -/
def keyCount (m : List (String × String)) (k : String) : Nat :=
  (m.filter (fun p => p.1 == k)).length

/-- Extension-registration loop of one entry (`build.rs` lines 98-103):
`parsers.insert(extension, generated_file)` for each listed extension. -/
def insertExtensions (parsers : List (String × String)) (extensions : List String)
    (generated_file : String) : List (String × String) :=
  extensions.foldl (fun m e => hmInsert m e generated_file) parsers

/-- Accumulation of the dispatch map across the entry iteration: each entry,
in iteration order, registers its extension list against its generated file
via `insertExtensions`. -/
def registerAll (parsers : List (String × String))
    (regs : List (List String × String)) : List (String × String) :=
  regs.foldl (fun m r => insertExtensions m r.1 r.2) parsers

/-- Processing of one manifest entry in the loop of
`download_and_generate_grammars` (`build.rs` lines 85-104): create the
per-entry generated directory, run `download_file`, run the generator stage on
the verified bytes, and register the entry's extensions. -/
def process_entry (gen : EmbeddedCompiler) (fetchO : String → Option (List Nat))
    (cacheO : String → CacheFile) (downloaded_dir generated_dir key : String)
    (value : GrammarDownload) (parsers : List (String × String)) :
    List Event × Except BuildScriptError (List (String × String)) :=
  let downloaded_langdir := downloaded_dir ++ "/" ++ key
  let generated_langdir := generated_dir ++ "/" ++ key
  let filename := rsFileName value.url
  let file_path := downloaded_langdir ++ "/" ++ filename
  let fo := download_file value.url value.sha256 downloaded_langdir
    (cacheO file_path) (fetchO value.url)
  let evs := Event.mkdir generated_langdir :: fo.events
  match fo.result with
  | .error e => (evs, .error (.io e))
  | .ok _ =>
    let generated_file := generated_langdir ++ "/" ++ rsFileStem filename ++ ".dfa"
    let gs := generator_stage gen generated_file (fileBytes fo.file)
    match gs.2 with
    | .error e => (evs ++ gs.1, .error e)
    | .ok _ =>
      (evs ++ gs.1, .ok (insertExtensions parsers value.extensions generated_file))

/-- Entry loop of `download_and_generate_grammars`: sequential, aborting at
the first failing entry, threading the accumulated events and dispatch map. -/
def dagLoop (gen : EmbeddedCompiler) (fetchO : String → Option (List Nat))
    (cacheO : String → CacheFile) (downloaded_dir generated_dir : String) :
    List (String × GrammarDownload) → List Event → List (String × String) →
    List Event × Except BuildScriptError (List (String × String))
  | [], evs, parsers => (evs, .ok parsers)
  | (key, value) :: rest, evs, parsers =>
    let r := process_entry gen fetchO cacheO downloaded_dir generated_dir key
      value parsers
    match r.2 with
    | .error e => (evs ++ r.1, .error e)
    | .ok parsers' =>
      dagLoop gen fetchO cacheO downloaded_dir generated_dir rest (evs ++ r.1)
        parsers'

/-- `download_and_generate_grammars` (`build.rs` lines 77-106): decode the
manifest, then iterate the entries; a decode failure surfaces as the `Toml`
configuration error before the loop starts. -/
def download_and_generate_grammars (gen : EmbeddedCompiler)
    (fetchO : String → Option (List Nat)) (cacheO : String → CacheFile)
    (downloaded_dir generated_dir : String) (doc : Toml) :
    List Event × Except BuildScriptError (List (String × String)) :=
  match decodeManifest doc with
  | .error e => ([], .error (.toml e))
  | .ok entries =>
    dagLoop gen fetchO cacheO downloaded_dir generated_dir entries [] []

/-! ### Claims about the pipeline -/

/-- An entry whose `url` field is a TOML array fails the serde decode with a
type error (this variant declares `url: String`). -/
theorem decodeGrammarDownload_url_arr (fields : List (String × Toml))
    (us : List Toml) (hurl : lookupToml fields "url" = some (.arr us)) :
    decodeGrammarDownload (.table fields) =
      .error "invalid type: expected a string" := by
  simp [decodeGrammarDownload, hurl, asStr]

/-- If any entry of the table fails to decode, the whole manifest decode
fails. -/
theorem decodeEntries_error_of_mem (entries : List (String × Toml))
    (hbad : ∃ p ∈ entries, ∃ e, decodeGrammarDownload p.2 = .error e) :
    ∃ e, decodeEntries entries = .error e := by
  induction entries with
  | nil => simp at hbad
  | cons hd tl ih =>
    obtain ⟨k0, v0⟩ := hd
    cases hv0 : decodeGrammarDownload v0 with
    | error e0 => exact ⟨e0, by simp [decodeEntries, hv0]⟩
    | ok g =>
      obtain ⟨p, hp, e, hpe⟩ := hbad
      rcases List.mem_cons.mp hp with rfl | hp'
      · rw [hv0] at hpe
        cases hpe
      · obtain ⟨e', he'⟩ := ih ⟨p, hp', e, hpe⟩
        exact ⟨e', by simp [decodeEntries, hv0, he']⟩

/-- C4: a manifest containing an entry whose `url` and `sha256` are lists of
different lengths fails with the `Toml` configuration error before anything
else happens: no network fetch, no directory creation, no file write, and no
entry of the manifest is processed (the event trace is empty). In this
variant of the build script such an entry cannot even decode — `url` and
`sha256` are single strings, so a list-valued field is already a
configuration error. -/
theorem manifest_length_mismatch_config_error (gen : EmbeddedCompiler)
    (fetchO : String → Option (List Nat)) (cacheO : String → CacheFile)
    (downloaded_dir generated_dir : String) (entries : List (String × Toml))
    (key : String) (fields : List (String × Toml)) (us hs : List Toml)
    (hmem : (key, Toml.table fields) ∈ entries)
    (hurl : lookupToml fields "url" = some (.arr us))
    (_hsha : lookupToml fields "sha256" = some (.arr hs))
    (_hlen : us.length ≠ hs.length) :
    ∃ e, download_and_generate_grammars gen fetchO cacheO downloaded_dir
      generated_dir (.table entries) = ([], .error (.toml e)) := by
  obtain ⟨e, he⟩ := decodeEntries_error_of_mem entries
    ⟨(key, .table fields), hmem,
     "invalid type: expected a string", decodeGrammarDownload_url_arr fields us hurl⟩
  exact ⟨e, by simp [download_and_generate_grammars, decodeManifest, he]⟩

/-- Witness for C4: a one-entry manifest with two URLs and one hash. -/
theorem manifest_length_mismatch_config_error_witness :
    ∃ e, download_and_generate_grammars (fun b => .ok b) (fun _ => none)
      (fun _ => .absent) "downloaded" "generated"
      (.table [("json", .table
        [("url", .arr [.str "https://x/a.g4", .str "https://y/b.g4"]),
         ("sha256", .arr [.str "aa"]),
         ("extensions", .arr [.str "json"])])]) =
      ([], .error (.toml e)) :=
  manifest_length_mismatch_config_error (fun b => .ok b) (fun _ => none)
    (fun _ => .absent) "downloaded" "generated" _ "json"
    [("url", .arr [.str "https://x/a.g4", .str "https://y/b.g4"]),
     ("sha256", .arr [.str "aa"]),
     ("extensions", .arr [.str "json"])]
    [.str "https://x/a.g4", .str "https://y/b.g4"] [.str "aa"]
    (List.mem_singleton.mpr rfl) rfl rfl (by decide)

/-- C6: the generator stage is deterministic — two runs of the
embedded-compiler path over identical verified input bytes produce identical
artifact bytes and identical file writes. -/
theorem generator_stage_deterministic (gen : EmbeddedCompiler)
    (generated_file : String) (b₁ b₂ : List Nat) (h : b₁ = b₂) :
    generator_stage gen generated_file b₁ = generator_stage gen generated_file b₂ := by
  rw [h]

/-- Witness for C6: a concrete compiler oracle on equal byte lists. -/
theorem generator_stage_deterministic_witness :
    generator_stage (fun b => .ok (0 :: b)) "generated/json/json.dfa" [1, 2] =
      generator_stage (fun b => .ok (0 :: b)) "generated/json/json.dfa" [1, 2] :=
  generator_stage_deterministic (fun b => .ok (0 :: b)) "generated/json/json.dfa"
    [1, 2] [1, 2] rfl

/-- Lookup on a cons cell whose key matches. -/
theorem hmLookup_cons_eq (k v' : String) (l : List (String × String)) :
    hmLookup ((k, v') :: l) k = some v' := by
  simp [hmLookup, List.find?]

/-- Lookup on a cons cell whose key differs. -/
theorem hmLookup_cons_ne {k' k : String} (v' : String)
    (l : List (String × String)) (h : k' ≠ k) :
    hmLookup ((k', v') :: l) k = hmLookup l k := by
  simp [hmLookup, List.find?, beq_false_of_ne h]

/-- Binding count on a cons cell whose key matches. -/
theorem keyCount_cons_eq (k v' : String) (l : List (String × String)) :
    keyCount ((k, v') :: l) k = keyCount l k + 1 := by
  simp [keyCount, List.filter_cons]

/-- Binding count on a cons cell whose key differs. -/
theorem keyCount_cons_ne {k' k : String} (v' : String)
    (l : List (String × String)) (h : k' ≠ k) :
    keyCount ((k', v') :: l) k = keyCount l k := by
  simp [keyCount, List.filter_cons, beq_false_of_ne h]

/-- Unfolding of `hmInsert` on a cons cell. -/
theorem hmInsert_cons (k' v' k v : String) (l : List (String × String)) :
    hmInsert ((k', v') :: l) k v =
      if k' = k then (k, v) :: l else (k', v') :: hmInsert l k v := rfl

/-- Inserting a key makes it the key's binding. -/
theorem hmLookup_hmInsert_self (m : List (String × String)) (k v : String) :
    hmLookup (hmInsert m k v) k = some v := by
  induction m with
  | nil => exact hmLookup_cons_eq k v []
  | cons hd tl ih =>
    obtain ⟨k', v'⟩ := hd
    rw [hmInsert_cons]
    by_cases hk : k' = k
    · rw [if_pos hk, hmLookup_cons_eq]
    · rw [if_neg hk, hmLookup_cons_ne _ _ hk, ih]

/-- Inserting a key leaves other keys' bindings unchanged. -/
theorem hmLookup_hmInsert_other (m : List (String × String)) {j k : String}
    (v : String) (hjk : j ≠ k) :
    hmLookup (hmInsert m k v) j = hmLookup m j := by
  induction m with
  | nil =>
    show hmLookup [(k, v)] j = hmLookup [] j
    rw [hmLookup_cons_ne _ _ (Ne.symm hjk)]
  | cons hd tl ih =>
    obtain ⟨k', v'⟩ := hd
    rw [hmInsert_cons]
    by_cases hk : k' = k
    · subst hk
      rw [if_pos rfl, hmLookup_cons_ne _ _ (Ne.symm hjk),
        hmLookup_cons_ne _ _ (Ne.symm hjk)]
    · rw [if_neg hk]
      by_cases hj : k' = j
      · subst hj
        rw [hmLookup_cons_eq, hmLookup_cons_eq]
      · rw [hmLookup_cons_ne _ _ hj, hmLookup_cons_ne _ _ hj, ih]

/-- Inserting a key leaves it with one binding if it had at most one. -/
theorem keyCount_hmInsert_self (m : List (String × String)) (k v : String) :
    keyCount (hmInsert m k v) k = max (keyCount m k) 1 := by
  induction m with
  | nil =>
    show keyCount [(k, v)] k = max (keyCount [] k) 1
    rw [keyCount_cons_eq]
    rfl
  | cons hd tl ih =>
    obtain ⟨k', v'⟩ := hd
    rw [hmInsert_cons]
    by_cases hk : k' = k
    · subst hk
      rw [if_pos rfl, keyCount_cons_eq, keyCount_cons_eq]
      omega
    · rw [if_neg hk, keyCount_cons_ne _ _ hk, keyCount_cons_ne _ _ hk, ih]

/-- Inserting a key does not change the binding count of other keys. -/
theorem keyCount_hmInsert_other (m : List (String × String)) {j k : String}
    (v : String) (hjk : j ≠ k) :
    keyCount (hmInsert m k v) j = keyCount m j := by
  induction m with
  | nil =>
    show keyCount [(k, v)] j = keyCount [] j
    rw [keyCount_cons_ne _ _ (Ne.symm hjk)]
  | cons hd tl ih =>
    obtain ⟨k', v'⟩ := hd
    rw [hmInsert_cons]
    by_cases hk : k' = k
    · subst hk
      rw [if_pos rfl, keyCount_cons_ne _ _ (Ne.symm hjk),
        keyCount_cons_ne _ _ (Ne.symm hjk)]
    · rw [if_neg hk]
      by_cases hj : k' = j
      · subst hj
        rw [keyCount_cons_eq, keyCount_cons_eq, ih]
      · rw [keyCount_cons_ne _ _ hj, keyCount_cons_ne _ _ hj, ih]

/-- A registration not containing the key leaves its binding unchanged. -/
theorem insertExtensions_lookup_not_mem (exts : List String)
    (m : List (String × String)) (p : String) {e : String} (he : e ∉ exts) :
    hmLookup (insertExtensions m exts p) e = hmLookup m e := by
  induction exts generalizing m with
  | nil => rfl
  | cons x xs ih =>
    have hex : e ∉ xs := fun h => he (List.mem_cons_of_mem _ h)
    have hxe : e ≠ x := fun h => he (h ▸ List.mem_cons_self x xs)
    show hmLookup (insertExtensions (hmInsert m x p) xs p) e = hmLookup m e
    rw [ih _ hex, hmLookup_hmInsert_other m p hxe]

/-- A registration not containing the key leaves its binding count
unchanged. -/
theorem insertExtensions_keyCount_not_mem (exts : List String)
    (m : List (String × String)) (p : String) {e : String} (he : e ∉ exts) :
    keyCount (insertExtensions m exts p) e = keyCount m e := by
  induction exts generalizing m with
  | nil => rfl
  | cons x xs ih =>
    have hex : e ∉ xs := fun h => he (List.mem_cons_of_mem _ h)
    have hxe : e ≠ x := fun h => he (h ▸ List.mem_cons_self x xs)
    show keyCount (insertExtensions (hmInsert m x p) xs p) e = keyCount m e
    rw [ih _ hex, keyCount_hmInsert_other m p hxe]

/-- A registration containing the key binds it to that registration's path. -/
theorem insertExtensions_lookup_mem (exts : List String)
    (m : List (String × String)) (p : String) {e : String} (he : e ∈ exts) :
    hmLookup (insertExtensions m exts p) e = some p := by
  induction exts generalizing m with
  | nil => cases he
  | cons x xs ih =>
    show hmLookup (insertExtensions (hmInsert m x p) xs p) e = some p
    by_cases hex : e ∈ xs
    · exact ih _ hex
    · have hxe : e = x := by
        rcases List.mem_cons.mp he with h | h
        · exact h
        · exact absurd h hex
      subst hxe
      rw [insertExtensions_lookup_not_mem xs _ p hex, hmLookup_hmInsert_self]

/-- A registration containing the key leaves it with exactly one binding when
it had at most one. -/
theorem insertExtensions_keyCount_mem (exts : List String)
    (m : List (String × String)) (p : String) {e : String} (he : e ∈ exts) :
    keyCount (insertExtensions m exts p) e = max (keyCount m e) 1 := by
  induction exts generalizing m with
  | nil => cases he
  | cons x xs ih =>
    show keyCount (insertExtensions (hmInsert m x p) xs p) e = max (keyCount m e) 1
    by_cases hex : e ∈ xs
    · rw [ih _ hex]
      by_cases hxe : e = x
      · subst hxe
        rw [keyCount_hmInsert_self]
        omega
      · rw [keyCount_hmInsert_other m p hxe]
    · have hxe : e = x := by
        rcases List.mem_cons.mp he with h | h
        · exact h
        · exact absurd h hex
      subst hxe
      rw [insertExtensions_keyCount_not_mem xs _ p hex, keyCount_hmInsert_self]

/-- Path registered by the last registration in iteration order that lists the
extension. -/
def lastPathFor (regs : List (List String × String)) (e : String) :
    Option String :=
  ((regs.filter (fun r => decide (e ∈ r.1))).getLast?).map (·.2)

/-- Entries not listing the key leave both its binding and its count
unchanged. -/
theorem registerAll_not_touched (regs : List (List String × String))
    (m : List (String × String)) {e : String} (h : ∀ r ∈ regs, e ∉ r.1) :
    hmLookup (registerAll m regs) e = hmLookup m e ∧
    keyCount (registerAll m regs) e = keyCount m e := by
  induction regs generalizing m with
  | nil => exact ⟨rfl, rfl⟩
  | cons r rest ih =>
    have hr : e ∉ r.1 := h r (List.mem_cons_self _ _)
    have hrest : ∀ r' ∈ rest, e ∉ r'.1 :=
      fun r' hr' => h r' (List.mem_cons_of_mem _ hr')
    have step : registerAll m (r :: rest) =
        registerAll (insertExtensions m r.1 r.2) rest := rfl
    rw [step]
    obtain ⟨h1, h2⟩ := ih _ hrest
    exact ⟨h1.trans (insertExtensions_lookup_not_mem _ _ _ hr),
           h2.trans (insertExtensions_keyCount_not_mem _ _ _ hr)⟩

/-- Main accumulation lemma: if some registration lists the extension, the
final map binds it exactly once, to the last such registration's path. -/
theorem registerAll_last_wins (regs : List (List String × String))
    (m : List (String × String)) {e : String} (hcnt : keyCount m e ≤ 1)
    (hmem : ∃ r ∈ regs, e ∈ r.1) :
    hmLookup (registerAll m regs) e = lastPathFor regs e ∧
    keyCount (registerAll m regs) e = 1 := by
  induction regs generalizing m with
  | nil => simp at hmem
  | cons r rest ih =>
    have step : registerAll m (r :: rest) =
        registerAll (insertExtensions m r.1 r.2) rest := rfl
    rw [step]
    by_cases hrest : ∃ r' ∈ rest, e ∈ r'.1
    · have hcnt' : keyCount (insertExtensions m r.1 r.2) e ≤ 1 := by
        by_cases hre : e ∈ r.1
        · rw [insertExtensions_keyCount_mem _ _ _ hre]
          omega
        · rw [insertExtensions_keyCount_not_mem _ _ _ hre]
          exact hcnt
      obtain ⟨hl, hc⟩ := ih _ hcnt' hrest
      refine ⟨hl.trans ?_, hc⟩
      obtain ⟨r', hr', hre'⟩ := hrest
      have hmemf : r' ∈ rest.filter (fun r => decide (e ∈ r.1)) :=
        List.mem_filter.mpr ⟨hr', decide_eq_true hre'⟩
      unfold lastPathFor
      congr 1
      rw [List.filter_cons]
      by_cases hre : e ∈ r.1
      · simp only [decide_eq_true hre, if_pos]
        cases hfl : rest.filter (fun r => decide (e ∈ r.1)) with
        | nil => rw [hfl] at hmemf; cases hmemf
        | cons x xs => rw [List.getLast?_cons_cons]
      · simp only [decide_eq_false hre, if_neg, Bool.false_eq_true,
          not_false_eq_true]
    · have hre : e ∈ r.1 := by
        obtain ⟨r', hr', hre'⟩ := hmem
        rcases List.mem_cons.mp hr' with rfl | h'
        · exact hre'
        · exact absurd ⟨r', h', hre'⟩ hrest
      have hnr : ∀ r' ∈ rest, e ∉ r'.1 := by
        intro r' hr' hre'
        exact hrest ⟨r', hr', hre'⟩
      obtain ⟨h1, h2⟩ := registerAll_not_touched rest _ hnr
      have hfil : rest.filter (fun r => decide (e ∈ r.1)) = [] := by
        rw [List.filter_eq_nil_iff]
        intro r' hr'
        simpa using hnr r' hr'
      constructor
      · rw [h1, insertExtensions_lookup_mem _ _ _ hre]
        unfold lastPathFor
        rw [List.filter_cons]
        simp only [decide_eq_true hre, if_pos, hfil]
        rfl
      · rw [h2, insertExtensions_keyCount_mem _ _ _ hre]
        omega

/-- C8: when registrations collide on an extension (two entries listing it, or
one entry listing it twice), the accumulated dispatch map ends with exactly
one binding for that extension — the last one inserted in iteration order —
and the earlier path is silently overwritten; nothing is rejected. -/
theorem duplicate_extension_last_wins (regs : List (List String × String))
    (e : String) (hmem : ∃ r ∈ regs, e ∈ r.1) :
    hmLookup (registerAll [] regs) e = lastPathFor regs e ∧
    keyCount (registerAll [] regs) e = 1 :=
  registerAll_last_wins regs [] (by simp [keyCount]) hmem

/-- Witness for C8: two entries both registering `"json"`; the second one's
generated file wins and there is a single binding. -/
theorem duplicate_extension_last_wins_witness :
    hmLookup (registerAll []
        [(["json"], "generated/a/a.dfa"), (["json", "js"], "generated/b/b.dfa")])
      "json" =
      lastPathFor
        [(["json"], "generated/a/a.dfa"), (["json", "js"], "generated/b/b.dfa")]
        "json" ∧
    keyCount (registerAll []
        [(["json"], "generated/a/a.dfa"), (["json", "js"], "generated/b/b.dfa")])
      "json" = 1 :=
  duplicate_extension_last_wins
    [(["json"], "generated/a/a.dfa"), (["json", "js"], "generated/b/b.dfa")]
    "json" ⟨(["json"], "generated/a/a.dfa"), by simp, by simp⟩

/-! ## Sanity checks

The SHA-256 embedding agrees with the standard test vectors for the empty
message and for the ASCII message `abc`. -/

example :
    sha256hex [] =
      "e3b0c44298fc1c149afbf4c8996fb92427ae41e4649b934ca495991b7852b855" := by
  decide

example :
    sha256hex [97, 98, 99] =
      "ba7816bf8f01cfea414140de5dae2223b00361a396177a9cb410ff61f20015ad" := by
  decide
